import Mathlib

/-!
Verification of the OBJ mesh loader/deduplicator of
`examples/chapter-3/src/main.rs` (`Obj::load`).

The loader reads a Wavefront OBJ file, parses it with the external
`wavefront_obj` crate, validates the structure (exactly one object, exactly one
geometry group, triangle primitives only), and builds an interleaved vertex
buffer plus an index buffer, deduplicating vertices that share the same
`obj::VTNIndex` key through a `HashMap`.

Modelling choices:
* the post-parse data of the external parser (`ObjSet`, `Object`, `Geometry`,
  `Shape`, `Primitive`, `VTNIndex`) is embedded directly; coordinate triples
  are kept abstract (a type parameter `A`), and the per-component
  `f64 → f32` conversion of the source is an abstract function `conv : A → B`;
* the `HashMap` used as deduplication cache is accessed through an abstract
  interface `CacheOps` (instantiated with an association list), so that
  independence of the result from the map's hidden internal state — the
  content of the order-determinism property — can be stated and proved;
* `u32` vertex indices are `Nat` with an explicit `% 2 ^ 32` at the single
  point where the source casts `vertices.len() as VertexIndex`;
* Rust panics (`unwrap` on a read error, out-of-bounds `Vec` indexing) are a
  `fatal` outcome, distinct from the `err` results returned to the caller.
-/

/-- Model of `wavefront_obj::obj::VTNIndex`: the tuple
`(vertex index, optional texture index, optional normal index)`.
`pos` is the Rust tuple field `.0`, `tex` is `.1`, `nrm` is `.2`. -/
structure VTNIndex where
  pos : Nat
  tex : Option Nat
  nrm : Option Nat
deriving DecidableEq

/-- Model of `wavefront_obj::obj::Primitive`. -/
inductive Primitive where
  | point (a : VTNIndex)
  | line (a b : VTNIndex)
  | triangle (a b c : VTNIndex)
deriving DecidableEq

/-- Model of `wavefront_obj::obj::Shape` (the material/smoothing data the
loader never touches is omitted). -/
structure Shape where
  primitive : Primitive
deriving DecidableEq

/-- Model of `wavefront_obj::obj::Geometry`: the shapes of one geometry
group. -/
structure Geometry where
  shapes : List Shape
deriving DecidableEq

/-- Model of `wavefront_obj::obj::Object`.  The coordinate triples of the
`vertices` (positions) and `normals` arrays are abstract values of type `A`
(standing for the crate's `{ x, y, z : f64 }` records). -/
structure Object (A : Type) where
  name : String
  vertices : List A
  normals : List A
  geometry : List Geometry
deriving DecidableEq

/-- Model of `wavefront_obj::obj::ObjSet`. -/
structure ObjSet (A : Type) where
  objects : List (Object A)
deriving DecidableEq

/-- The emitted GPU vertex of the source (`struct Vertex`): a position and a
normal.  `B` stands for the `[f32; 3]` payload of `VertexPosition` /
`VertexNormal`. -/
structure Vertex (B : Type) where
  position : B
  normal : B
deriving DecidableEq

/-- The output of `Obj::load` (`struct Obj`): the interleaved vertex sequence
and the `u32` index sequence (indices modelled as `Nat`, reduced `% 2 ^ 32`
where the source casts). -/
structure Obj (B : Type) where
  vertices : List (Vertex B)
  indices : List Nat
deriving DecidableEq

/-- Outcome of a Rust computation that can return normally (`ok`), return an
error to the caller (`err`, the `Err` branch of `Result<_, String>`), or raise
an uncatchable fault (`fatal`, a Rust panic such as `unwrap` on an `Err` or
out-of-bounds `Vec` indexing). -/
inductive LoadResult (α : Type) where
  | ok (value : α)
  | err (msg : String)
  | fatal (msg : String)
deriving DecidableEq

/-- Sequencing that propagates both returned errors and panics, modelling `?`
and ordinary control flow inside `Obj::load`. -/
def LoadResult.bind {α β : Type} : LoadResult α → (α → LoadResult β) → LoadResult β
  | .ok a, f => f a
  | .err m, _ => .err m
  | .fatal m, _ => .fatal m

/-- Whether the outcome is a panic. -/
def LoadResult.isFatal {α : Type} : LoadResult α → Bool
  | .fatal _ => true
  | _ => false

/-- Whether the outcome is an error returned to the caller. -/
def LoadResult.isErr {α : Type} : LoadResult α → Bool
  | .err _ => true
  | _ => false

/-- Abstract interface of the deduplication map
(`HashMap<obj::VTNIndex, VertexIndex>`): the three operations `Obj::load`
uses (`HashMap::new`, `HashMap::get`, `HashMap::insert`). -/
structure CacheOps (M : Type) where
  empty : M
  find : M → VTNIndex → Option Nat
  insert : M → VTNIndex → Nat → M

/-- The map laws every `HashMap` state satisfies, whatever its hidden hash
seed: lookups see exactly the inserted associations. -/
structure LawfulCacheOps {M : Type} (impl : CacheOps M) : Prop where
  find_empty : ∀ k, impl.find impl.empty k = none
  find_insert_self : ∀ m k v, impl.find (impl.insert m k v) k = some v
  find_insert_ne : ∀ m k kk v, k ≠ kk → impl.find (impl.insert m k v) kk = impl.find m kk

/-- Association-list instantiation of the cache: the concrete model of the
`HashMap` used in this development. -/
abbrev Cache : Type := List (VTNIndex × Nat)

/-- Lookup in the association-list cache. -/
def assocFind : Cache → VTNIndex → Option Nat
  | [], _ => none
  | (kk, v) :: rest, k => if kk = k then some v else assocFind rest k

/-- The association-list cache operations. -/
def assocCache : CacheOps Cache :=
  { empty := ([] : List (VTNIndex × Nat))
    find := assocFind
    insert := fun m k v => (k, v) :: m }

/-- The `vertices.len() as VertexIndex` cast of the source: `usize → u32`
truncation. -/
def wrap32 (n : Nat) : Nat := n % 2 ^ 32

/-- Mutable state of the loading loop: the deduplication cache and the
`vertices` / `indices` vectors being built. -/
structure LoadStateG (M B : Type) where
  cache : M
  vertices : List (Vertex B)
  indices : List Nat

/-- Loading state with the concrete association-list cache. -/
abbrev LoadState (B : Type) := LoadStateG Cache B

/-- One corner of a triangle (`for key in &[a, b, c] { ... }` body of
`Obj::load`, lines 110–124 of chapter-3 `main.rs`), generic in the cache
implementation and in the index cast `mk` (the source uses the truncating
`usize → u32` cast `wrap32`):
* cache hit: push the cached index;
* cache miss: index `object.vertices[key.0]` (panic when out of bounds),
  require a normal index (`key.2.ok_or(...)?`), index
  `object.normals[...]` (panic when out of bounds), build the vertex,
  record it in the cache and push the new index. -/
def processCornerG {M A B : Type} (impl : CacheOps M) (mk : Nat → Nat) (conv : A → B)
    (o : Object A) (st : LoadStateG M B) (key : VTNIndex) : LoadResult (LoadStateG M B) :=
  match impl.find st.cache key with
  | some vertexIndex => .ok { st with indices := st.indices ++ [vertexIndex] }
  | none =>
    match o.vertices[key.pos]? with
    | none => .fatal "index out of bounds"
    | some p =>
      match key.nrm with
      | none => .err "missing normal for a vertex"
      | some ni =>
        match o.normals[ni]? with
        | none => .fatal "index out of bounds"
        | some n =>
          let vertex : Vertex B := { position := conv p, normal := conv n }
          let vertexIndex := mk st.vertices.length
          .ok { cache := impl.insert st.cache key vertexIndex
                vertices := st.vertices ++ [vertex]
                indices := st.indices ++ [vertexIndex] }

/-- One shape of the geometry group (lines 109–128): a triangle's three
corners are processed in order `a`, `b`, `c`; any other primitive is the
`unsupported non-triangle shape` error. -/
def processShapeG {M A B : Type} (impl : CacheOps M) (mk : Nat → Nat) (conv : A → B)
    (o : Object A) (st : LoadStateG M B) (s : Shape) : LoadResult (LoadStateG M B) :=
  match s.primitive with
  | .triangle a b c =>
    (processCornerG impl mk conv o st a).bind fun st1 =>
      (processCornerG impl mk conv o st1 b).bind fun st2 =>
        processCornerG impl mk conv o st2 c
  | _ => .err "unsupported non-triangle shape"

/-- The `for shape in geometry.shapes` loop (lines 108–129). -/
def processShapesG {M A B : Type} (impl : CacheOps M) (mk : Nat → Nat) (conv : A → B)
    (o : Object A) (st : LoadStateG M B) : List Shape → LoadResult (LoadStateG M B)
  | [] => .ok st
  | s :: rest =>
    (processShapeG impl mk conv o st s).bind fun st1 =>
      processShapesG impl mk conv o st1 rest

/-- Corner-level view of the loop: processing a flat list of corners.  Used
in proofs; `processShapesG` on all-triangle shape lists agrees with it. -/
def processCornersG {M A B : Type} (impl : CacheOps M) (mk : Nat → Nat) (conv : A → B)
    (o : Object A) (st : LoadStateG M B) : List VTNIndex → LoadResult (LoadStateG M B)
  | [] => .ok st
  | k :: ks =>
    (processCornerG impl mk conv o st k).bind fun st1 =>
      processCornersG impl mk conv o st1 ks

/-- The body of `Obj::load` after parsing (lines 88–131): require exactly one
object, then exactly one geometry group, then fold the shape loop from the
empty state and return the built `Obj`. -/
def loadObjSetG {M A B : Type} (impl : CacheOps M) (mk : Nat → Nat) (conv : A → B)
    (os : ObjSet A) : LoadResult (Obj B) :=
  match os.objects with
  | [object] =>
    match object.geometry with
    | [geometry] =>
      (processShapesG impl mk conv object
          { cache := impl.empty, vertices := [], indices := [] } geometry.shapes).bind
        fun st => .ok { vertices := st.vertices, indices := st.indices }
    | _ => .err "expecting a single geometry"
  | _ => .err "expecting a single object"

/-- Model of the file collaborator of `Obj::load` (lines 81–86): `File::open`
may fail; `read_to_string` on the opened file may fail; otherwise the whole
text is available. -/
inductive FileAccess where
  | openFail (e : String)
  | readFail (e : String)
  | content (text : String)

/-- Full `Obj::load` (lines 77–132), generic in the cache implementation and
index cast.  `parse` models the external `obj::parse` black box.  An open
failure is mapped to an `err` (`map_err`), a read failure hits the
`read_to_string(...).unwrap()` of line 84 and panics, a parse failure is
mapped to an `err`. -/
def loadG {M A B : Type} (impl : CacheOps M) (mk : Nat → Nat)
    (parse : String → Except String (ObjSet A)) (conv : A → B)
    (file : FileAccess) : LoadResult (Obj B) :=
  match file with
  | .openFail e => .err ("cannot open file: " ++ e)
  | .readFail e => .fatal ("called unwrap on an Err value: " ++ e)
  | .content text =>
    match parse text with
    | .error e => .err ("cannot parse: " ++ e)
    | .ok os => loadObjSetG impl mk conv os

/-- `Obj::load` after parsing, with the source's concrete cache and cast. -/
def loadObjSet {A B : Type} (conv : A → B) (os : ObjSet A) : LoadResult (Obj B) :=
  loadObjSetG assocCache wrap32 conv os

/-- The same loader with an exact (non-truncating) index cast: the ideal
reference against which the `usize → u32` truncation is compared. -/
def loadObjSetExact {A B : Type} (conv : A → B) (os : ObjSet A) : LoadResult (Obj B) :=
  loadObjSetG assocCache id conv os

/-- Full `Obj::load` with the source's concrete cache and cast. -/
def load {A B : Type} (parse : String → Except String (ObjSet A)) (conv : A → B)
    (file : FileAccess) : LoadResult (Obj B) :=
  loadG assocCache wrap32 parse conv file

/-- Concrete corner step (source cache and cast). -/
def processCorner {A B : Type} (conv : A → B) (o : Object A) (st : LoadState B)
    (key : VTNIndex) : LoadResult (LoadState B) :=
  processCornerG assocCache wrap32 conv o st key

/-- Concrete shape step (source cache and cast). -/
def processShape {A B : Type} (conv : A → B) (o : Object A) (st : LoadState B)
    (s : Shape) : LoadResult (LoadState B) :=
  processShapeG assocCache wrap32 conv o st s

/-- Concrete shape loop (source cache and cast). -/
def processShapes {A B : Type} (conv : A → B) (o : Object A) (st : LoadState B)
    (shapes : List Shape) : LoadResult (LoadState B) :=
  processShapesG assocCache wrap32 conv o st shapes

/-- Concrete corner-level loop (source cache and cast). -/
def processCorners {A B : Type} (conv : A → B) (o : Object A) (st : LoadState B)
    (ks : List VTNIndex) : LoadResult (LoadState B) :=
  processCornersG assocCache wrap32 conv o st ks

/-- Resolution of one corner key against the source coordinate arrays: what
the cache-miss branch of the loop stores for that key (`none` when the key
cannot be resolved: out-of-range position/normal index or missing normal). -/
def resolveCorner {A B : Type} (conv : A → B) (o : Object A) (key : VTNIndex) :
    Option (Vertex B) :=
  match o.vertices[key.pos]? with
  | none => none
  | some p =>
    match key.nrm with
    | none => none
    | some ni =>
      match o.normals[ni]? with
      | none => none
      | some n => some { position := conv p, normal := conv n }

/-- The corner keys of one shape, in the order the loop visits them
(empty for non-triangle primitives, which the loop rejects). -/
def shapeCorners (s : Shape) : List VTNIndex :=
  match s.primitive with
  | .triangle a b c => [a, b, c]
  | _ => []

/-- All corner keys of a shape list, in source order. -/
def allCorners (shapes : List Shape) : List VTNIndex :=
  shapes.flatMap shapeCorners

/-- Whether a primitive is a triangle. -/
def Primitive.isTriangle : Primitive → Bool
  | .triangle _ _ _ => true
  | _ => false

/-- Number of triangle primitives in a shape list. -/
def triangleCount (shapes : List Shape) : Nat :=
  shapes.countP (fun s => s.primitive.isTriangle)

/-- The deduplication key the spec claims is used: the
(position-index, normal-index) pair, texture index dropped. -/
def pnKey (k : VTNIndex) : Nat × Option Nat :=
  (k.pos, k.nrm)

/-! ### Concrete inputs used by counterexamples and witnesses.
Coordinates are instantiated at `A = B = Nat` with `conv = id`. -/

/-- Corner key with no texture index. -/
def key3 (p n : Nat) : VTNIndex := { pos := p, tex := none, nrm := some n }

/-- One triangle on three distinct keys (first concrete scenario). -/
def c4geom1 : Geometry :=
  { shapes := [{ primitive := .triangle (key3 0 0) (key3 1 1) (key3 2 2) }] }

/-- Object of the first concrete scenario. -/
def c4obj1 : Object Nat :=
  { name := "obj", vertices := [10, 20, 30, 40], normals := [1, 2, 3, 4],
    geometry := [c4geom1] }

/-- One object, one geometry group, one triangle on three distinct keys. -/
def c4os1 : ObjSet Nat := { objects := [c4obj1] }

/-- Expected mesh of the first concrete scenario. -/
def c4mesh1 : Obj Nat :=
  { vertices := [{ position := 10, normal := 1 }, { position := 20, normal := 2 },
                 { position := 30, normal := 3 }]
    indices := [0, 1, 2] }

/-- Two triangles, the second reusing the first two corner keys and adding a
fresh one (second concrete scenario). -/
def c4geom2 : Geometry :=
  { shapes := [{ primitive := .triangle (key3 0 0) (key3 1 1) (key3 2 2) },
               { primitive := .triangle (key3 0 0) (key3 1 1) (key3 3 3) }] }

/-- Object of the second concrete scenario. -/
def c4obj2 : Object Nat :=
  { name := "obj", vertices := [10, 20, 30, 40], normals := [1, 2, 3, 4],
    geometry := [c4geom2] }

/-- Input of the second concrete scenario. -/
def c4os2 : ObjSet Nat := { objects := [c4obj2] }

/-- Expected mesh of the second concrete scenario. -/
def c4mesh2 : Obj Nat :=
  { vertices := [{ position := 10, normal := 1 }, { position := 20, normal := 2 },
                 { position := 30, normal := 3 }, { position := 40, normal := 4 }]
    indices := [0, 1, 2, 0, 1, 3] }

/-- Shapes whose first two corners share the (position, normal) pair but
differ in texture-coordinate index. -/
def c1shapes : List Shape :=
  [{ primitive := .triangle
       { pos := 0, tex := some 0, nrm := some 0 }
       { pos := 0, tex := some 1, nrm := some 0 }
       { pos := 1, tex := none, nrm := some 0 } }]

/-- Geometry group of the texture-index counterexample. -/
def c1geom : Geometry := { shapes := c1shapes }

/-- Object of the texture-index counterexample. -/
def c1obj : Object Nat :=
  { name := "obj", vertices := [10, 20], normals := [30], geometry := [c1geom] }

/-- Input whose first two corners share the (position, normal) pair but
differ in texture-coordinate index. -/
def c1os : ObjSet Nat := { objects := [c1obj] }

/-- Shapes whose first shape has a corner with a missing normal and whose
second shape is a non-triangle primitive. -/
def c5shapes : List Shape :=
  [{ primitive := .triangle
       { pos := 0, tex := none, nrm := none }
       (key3 0 0) (key3 0 0) },
   { primitive := .line (key3 0 0) (key3 0 0) }]

/-- Input combining a missing normal (first) and a non-triangle primitive
(second). -/
def c5os : ObjSet Nat :=
  { objects := [{ name := "obj"
                  vertices := [10]
                  normals := [30]
                  geometry := [{ shapes := c5shapes }] }] }

/-- An object holding two geometry groups. -/
def twoGeomObj : Object Nat :=
  { name := "obj", vertices := [], normals := [],
    geometry := [{ shapes := [] }, { shapes := [] }] }

/-- Input with one object holding two geometry groups. -/
def twoGeomOs : ObjSet Nat := { objects := [twoGeomObj] }

/-- A small object used to exercise single corner steps. -/
def witObj : Object Nat :=
  { name := "w", vertices := [5], normals := [6], geometry := [] }

/-- The empty loading state the loop starts from. -/
def startState : LoadState Nat := { cache := [], vertices := [], indices := [] }

/-- Input with an out-of-range position index (5, but only one position). -/
def c8osPos : ObjSet Nat :=
  { objects := [{ name := "obj"
                  vertices := [10]
                  normals := [30]
                  geometry := [{ shapes :=
                    [{ primitive := .triangle (key3 5 0) (key3 0 0) (key3 0 0) }] }] }] }

/-- Input with an out-of-range normal index (5, but only one normal). -/
def c8osNrm : ObjSet Nat :=
  { objects := [{ name := "obj"
                  vertices := [10]
                  normals := [30]
                  geometry := [{ shapes :=
                    [{ primitive := .triangle (key3 0 5) (key3 0 0) (key3 0 0) }] }] }] }

/-- A parse function that always succeeds with a fixed parse result; used to
instantiate the black-box parser at concrete inputs. -/
def parseConst (os : ObjSet Nat) : String → Except String (ObjSet Nat) :=
  fun _ => .ok os

/-- A parse function that always fails with a fixed message. -/
def parseFail (e : String) : String → Except String (ObjSet Nat) :=
  fun _ => .error e

/-- Number of `u32` values: the wrap-around modulus of the
`vertices.len() as VertexIndex` cast. -/
def N32 : Nat := 2 ^ 32

/-- Corner key number `j` of the wrap-around input: position index `j`,
no texture index, normal index `0`.  Distinct `j` give distinct keys. -/
def bigKey (j : Nat) : VTNIndex := { pos := j, tex := none, nrm := some 0 }

/-- Triangle number `j` of the wrap-around input: corners `3j`, `3j+1`,
`3j+2`, so all corners of all triangles are pairwise distinct keys. -/
def bigShape (j : Nat) : Shape :=
  { primitive := .triangle (bigKey (3 * j)) (bigKey (3 * j + 1)) (bigKey (3 * j + 2)) }

/-- The `2 ^ 32` triangles of the wrap-around input. -/
def bigShapes : List Shape := (List.range N32).map bigShape

/-- The geometry group of the wrap-around input. -/
def bigGeom : Geometry := { shapes := bigShapes }

/-- The `3 · 2 ^ 32` positions of the wrap-around input: position `j`
carries the value `j`. -/
def bigVerts : List Nat := List.range (3 * N32)

/-- The object of the wrap-around input: `3 · 2 ^ 32` positions (position
`j` carries the value `j`), one normal carrying the value `7`. -/
def bigObject : Object Nat :=
  { name := "big"
    vertices := bigVerts
    normals := [7]
    geometry := [bigGeom] }

/-- An input with `3 · 2 ^ 32` pairwise-distinct corner keys: enough fresh
keys to wrap the `u32` index counter. -/
def bigObjSet : ObjSet Nat := { objects := [bigObject] }

/-- The mesh `Obj::load` produces on `bigObjSet`: vertex `j` carries
position value `j` and normal value `7`, and index `j` is `j % 2 ^ 32`. -/
def bigMesh : Obj Nat :=
  { vertices := (List.range (3 * N32)).map (fun j => { position := j, normal := 7 })
    indices := (List.range (3 * N32)).map wrap32 }

/-- Invariant of the loading loop relating the state after processing the
corner-key list `ks` (in order) to the source object `o`:
the cache keys are exactly the distinct keys seen so far, the cache has one
entry per built vertex, one index was pushed per corner, and every cache
entry / pushed index is the (`u32`-truncated) position of a built vertex
holding the resolution of the corresponding key. -/
structure LoadInv {A B : Type} (conv : A → B) (o : Object A) (ks : List VTNIndex)
    (st : LoadState B) : Prop where
  nodupKeys : (st.cache.map Prod.fst).Nodup
  memKeys : ∀ k, k ∈ st.cache.map Prod.fst ↔ k ∈ ks
  cacheLen : st.cache.length = st.vertices.length
  indicesLen : st.indices.length = ks.length
  cacheSound : ∀ (k : VTNIndex) (vi : Nat), (k, vi) ∈ st.cache →
    ∃ j : Nat, j < st.vertices.length ∧ vi = wrap32 j ∧
      st.vertices[j]? = resolveCorner conv o k
  indicesSound : ∀ (i : Nat) (k : VTNIndex), ks[i]? = some k →
    ∃ vi : Nat, st.indices[i]? = some vi ∧
      ∃ j : Nat, j < st.vertices.length ∧ vi = wrap32 j ∧
        st.vertices[j]? = resolveCorner conv o k

/-- Correspondence of two loading states over different cache
implementations: same vertices, same indices, and caches that answer every
lookup identically.  Two runs of `Obj::load` (e.g. two `HashMap`s with
different hidden hash seeds) stay in this relation. -/
def StateRel {M1 M2 B : Type} (impl1 : CacheOps M1) (impl2 : CacheOps M2)
    (st1 : LoadStateG M1 B) (st2 : LoadStateG M2 B) : Prop :=
  st1.vertices = st2.vertices ∧ st1.indices = st2.indices ∧
    ∀ k, impl1.find st1.cache k = impl2.find st2.cache k

/-- Correspondence of two loop outcomes over different cache
implementations: both succeed with related states, or both fail the same
way with the same message. -/
def ResultRel {M1 M2 B : Type} (impl1 : CacheOps M1) (impl2 : CacheOps M2)
    (r1 : LoadResult (LoadStateG M1 B)) (r2 : LoadResult (LoadStateG M2 B)) : Prop :=
  (∃ st1 st2, r1 = .ok st1 ∧ r2 = .ok st2 ∧ StateRel impl1 impl2 st1 st2) ∨
  (∃ e, r1 = .err e ∧ r2 = .err e) ∨
  (∃ e, r1 = .fatal e ∧ r2 = .fatal e)

/-! ### Basic lemmas about the cache model and `LoadResult`. -/

theorem assocFind_eq_none_iff {c : Cache} {k : VTNIndex} :
    assocFind c k = none ↔ k ∉ c.map Prod.fst := by
  induction c with
  | nil => simp [assocFind]
  | cons hd tl ih =>
    obtain ⟨kk, v⟩ := hd
    by_cases h : kk = k
    · subst h
      simp [assocFind]
    · simp only [assocFind, h, if_false, List.map_cons, List.mem_cons, ih]
      constructor
      · rintro hn (rfl | hm)
        · exact h rfl
        · exact hn hm
      · intro hn hm
        exact hn (Or.inr hm)

theorem assocFind_some_mem {c : Cache} {k : VTNIndex} {v : Nat}
    (h : assocFind c k = some v) : (k, v) ∈ c := by
  induction c with
  | nil => simp [assocFind] at h
  | cons hd tl ih =>
    obtain ⟨kk, vv⟩ := hd
    by_cases hk : kk = k
    · subst hk
      simp only [assocFind, if_pos rfl] at h
      injection h with h
      subst h
      exact List.mem_cons_self _ _
    · simp only [assocFind, hk, if_false] at h
      exact List.mem_cons_of_mem _ (ih h)

theorem resolveCorner_eq_some {A B : Type} {conv : A → B} {o : Object A}
    {key : VTNIndex} {v : Vertex B} :
    resolveCorner conv o key = some v ↔
      ∃ p ni n, o.vertices[key.pos]? = some p ∧ key.nrm = some ni ∧
        o.normals[ni]? = some n ∧ v = { position := conv p, normal := conv n } := by
  unfold resolveCorner
  cases hp : o.vertices[key.pos]? with
  | none => simp [hp]
  | some p =>
    cases hn : key.nrm with
    | none => simp [hp, hn]
    | some ni =>
      cases hm : o.normals[ni]? with
      | none => simp [hp, hn, hm]
      | some n =>
        simp only [hp, hn, hm, Option.some.injEq]
        constructor
        · intro hv
          exact ⟨p, ni, n, rfl, rfl, hm, hv.symm⟩
        · rintro ⟨pp, nni, nn, hpp, hnn, hmm, rfl⟩
          subst hpp
          subst hnn
          rw [hm] at hmm
          injection hmm with hmm
          subst hmm
          rfl

theorem LoadResult.bind_assoc {α β γ : Type} (r : LoadResult α)
    (f : α → LoadResult β) (g : β → LoadResult γ) :
    (r.bind f).bind g = r.bind (fun a => (f a).bind g) := by
  cases r <;> rfl

theorem LoadResult.bind_eq_ok {α β : Type} {r : LoadResult α} {f : α → LoadResult β}
    {b : β} : r.bind f = .ok b ↔ ∃ a, r = .ok a ∧ f a = .ok b := by
  cases r <;> simp [LoadResult.bind]

theorem LoadResult.ok_bind {α β : Type} (a : α) (f : α → LoadResult β) :
    (LoadResult.ok a).bind f = f a := rfl

theorem LoadResult.bind_ok_id {α : Type} (r : LoadResult α) :
    r.bind .ok = r := by
  cases r <;> rfl

/-! ### Step characterizations of the loading loop. -/

theorem processCorner_hit {A B : Type} {conv : A → B} {o : Object A}
    {st : LoadState B} {key : VTNIndex} {vi : Nat}
    (h : assocFind st.cache key = some vi) :
    processCorner conv o st key = .ok { st with indices := st.indices ++ [vi] } := by
  simp [processCorner, processCornerG, assocCache, h]

theorem processCorner_miss {A B : Type} {conv : A → B} {o : Object A}
    {st : LoadState B} {key : VTNIndex} {v : Vertex B}
    (h : assocFind st.cache key = none) (hres : resolveCorner conv o key = some v) :
    processCorner conv o st key =
      .ok { cache := (key, wrap32 st.vertices.length) :: st.cache
            vertices := st.vertices ++ [v]
            indices := st.indices ++ [wrap32 st.vertices.length] } := by
  obtain ⟨p, ni, n, hp, hn, hm, rfl⟩ := resolveCorner_eq_some.mp hres
  simp [processCorner, processCornerG, assocCache, h, hp, hn, hm]

theorem processCorner_ok_cases {A B : Type} {conv : A → B} {o : Object A}
    {st st' : LoadState B} {key : VTNIndex}
    (h : processCorner conv o st key = .ok st') :
    (∃ vi, assocFind st.cache key = some vi ∧
      st' = { st with indices := st.indices ++ [vi] }) ∨
    (∃ v, assocFind st.cache key = none ∧ resolveCorner conv o key = some v ∧
      st' = { cache := (key, wrap32 st.vertices.length) :: st.cache
              vertices := st.vertices ++ [v]
              indices := st.indices ++ [wrap32 st.vertices.length] }) := by
  cases hf : assocFind st.cache key with
  | some vi =>
    rw [processCorner_hit hf] at h
    injection h with h
    subst h
    exact Or.inl ⟨vi, rfl, rfl⟩
  | none =>
    cases hp : o.vertices[key.pos]? with
    | none =>
      simp [processCorner, processCornerG, assocCache, hf, hp] at h
    | some p =>
      cases hn : key.nrm with
      | none =>
        simp [processCorner, processCornerG, assocCache, hf, hp, hn] at h
      | some ni =>
        cases hm : o.normals[ni]? with
        | none =>
          simp [processCorner, processCornerG, assocCache, hf, hp, hn, hm] at h
        | some n =>
          have hres : resolveCorner conv o key =
              some { position := conv p, normal := conv n } :=
            resolveCorner_eq_some.mpr ⟨p, ni, n, hp, hn, hm, rfl⟩
          rw [processCorner_miss hf hres] at h
          injection h with h
          subst h
          exact Or.inr ⟨{ position := conv p, normal := conv n }, rfl, hres, rfl⟩

theorem processCorners_nil {A B : Type} (conv : A → B) (o : Object A)
    (st : LoadState B) : processCorners conv o st [] = .ok st := rfl

theorem processCorners_cons {A B : Type} (conv : A → B) (o : Object A)
    (st : LoadState B) (k : VTNIndex) (ks : List VTNIndex) :
    processCorners conv o st (k :: ks) =
      (processCorner conv o st k).bind (fun st1 => processCorners conv o st1 ks) := rfl

theorem processCorners_append {A B : Type} (conv : A → B) (o : Object A) :
    ∀ (ks1 ks2 : List VTNIndex) (st : LoadState B),
      processCorners conv o st (ks1 ++ ks2) =
        (processCorners conv o st ks1).bind (fun st1 => processCorners conv o st1 ks2) := by
  intro ks1
  induction ks1 with
  | nil => intro ks2 st; simp [processCorners_nil, LoadResult.ok_bind]
  | cons k rest ih =>
    intro ks2 st
    rw [List.cons_append, processCorners_cons, processCorners_cons, LoadResult.bind_assoc]
    cases processCorner conv o st k with
    | ok st1 => simp [LoadResult.bind, ih]
    | err m => rfl
    | fatal m => rfl

/-! ### Shape-level / corner-level correspondence. -/

theorem isTriangle_eq_true_iff {p : Primitive} :
    p.isTriangle = true ↔ ∃ a b c, p = .triangle a b c := by
  cases p <;> simp [Primitive.isTriangle]

theorem processShape_triangle {A B : Type} (conv : A → B) (o : Object A)
    (st : LoadState B) (a b c : VTNIndex) :
    processShape conv o st { primitive := .triangle a b c } =
      processCorners conv o st [a, b, c] := by
  show (processCorner conv o st a).bind _ = (processCorner conv o st a).bind _
  cases processCorner conv o st a with
  | err m => rfl
  | fatal m => rfl
  | ok st1 =>
    show (processCorner conv o st1 b).bind _ = (processCorner conv o st1 b).bind _
    cases processCorner conv o st1 b with
    | err m => rfl
    | fatal m => rfl
    | ok st2 =>
      show processCorner conv o st2 c =
        (processCorner conv o st2 c).bind (fun st3 => processCorners conv o st3 [])
      exact (LoadResult.bind_ok_id _).symm

theorem processShape_nonTriangle {A B : Type} (conv : A → B) (o : Object A)
    (st : LoadState B) {s : Shape} (h : s.primitive.isTriangle = false) :
    processShape conv o st s = .err "unsupported non-triangle shape" := by
  obtain ⟨prim⟩ := s
  cases prim with
  | point a => rfl
  | line a b => rfl
  | triangle a b c => simp [Primitive.isTriangle] at h

theorem processShapes_nil {A B : Type} (conv : A → B) (o : Object A)
    (st : LoadState B) : processShapes conv o st [] = .ok st := rfl

theorem processShapes_cons {A B : Type} (conv : A → B) (o : Object A)
    (st : LoadState B) (s : Shape) (rest : List Shape) :
    processShapes conv o st (s :: rest) =
      (processShape conv o st s).bind (fun st1 => processShapes conv o st1 rest) := rfl

theorem processShapes_ok_triangles {A B : Type} {conv : A → B} {o : Object A} :
    ∀ {shapes : List Shape} {st st' : LoadState B},
      processShapes conv o st shapes = .ok st' →
      ∀ s ∈ shapes, s.primitive.isTriangle = true := by
  intro shapes
  induction shapes with
  | nil =>
    intro st st' _ s hs
    simp at hs
  | cons hd tl ih =>
    intro st st' h s hs
    rw [processShapes_cons] at h
    obtain ⟨st1, h1, h2⟩ := LoadResult.bind_eq_ok.mp h
    rcases List.mem_cons.mp hs with rfl | hs2
    · cases htri : s.primitive.isTriangle with
      | true => rfl
      | false =>
        rw [processShape_nonTriangle conv o st htri] at h1
        cases h1
    · exact ih h2 s hs2

theorem processShapes_eq_corners {A B : Type} (conv : A → B) (o : Object A) :
    ∀ (shapes : List Shape), (∀ s ∈ shapes, s.primitive.isTriangle = true) →
      ∀ st : LoadState B,
        processShapes conv o st shapes = processCorners conv o st (allCorners shapes) := by
  intro shapes
  induction shapes with
  | nil => intro _ st; rfl
  | cons hd tl ih =>
    intro htri st
    have hhd := htri hd (List.mem_cons_self _ _)
    obtain ⟨a, b, c, habc⟩ := isTriangle_eq_true_iff.mp hhd
    have hsc : allCorners (hd :: tl) = [a, b, c] ++ allCorners tl := by
      simp [allCorners, shapeCorners, habc]
    have hhdeq : hd = { primitive := .triangle a b c } := by
      cases hd
      cases habc
      rfl
    rw [processShapes_cons, hsc, processCorners_append, hhdeq, processShape_triangle]
    cases processCorners conv o st [a, b, c] with
    | err m => rfl
    | fatal m => rfl
    | ok st1 =>
      show processShapes conv o st1 tl = processCorners conv o st1 (allCorners tl)
      exact ih (fun s hs => htri s (List.mem_cons_of_mem _ hs)) st1

theorem loadObjSet_ok_elim {A B : Type} {conv : A → B} {os : ObjSet A} {m : Obj B}
    (h : loadObjSet conv os = .ok m) :
    ∃ o g st, os.objects = [o] ∧ o.geometry = [g] ∧
      processShapes conv o { cache := [], vertices := [], indices := [] } g.shapes = .ok st ∧
      m = { vertices := st.vertices, indices := st.indices } := by
  obtain ⟨objs⟩ := os
  rcases objs with _ | ⟨o, _ | ⟨o2, orest⟩⟩
  · simp [loadObjSet, loadObjSetG] at h
  · refine ⟨o, ?_⟩
    revert h
    simp only [loadObjSet, loadObjSetG]
    cases hg : o.geometry with
    | nil => intro h; simp at h
    | cons g grest =>
      cases grest with
      | cons g2 grest2 => intro h; simp at h
      | nil =>
        intro h
        obtain ⟨st, hst, hm⟩ := LoadResult.bind_eq_ok.mp h
        injection hm with hm
        exact ⟨g, st, by simp, rfl, hst, hm.symm⟩
  · simp [loadObjSet, loadObjSetG] at h

/-! ### The loading-loop invariant. -/

theorem LoadInv.emptyState {A B : Type} (conv : A → B) (o : Object A) :
    LoadInv conv o [] { cache := [], vertices := [], indices := [] } := by
  refine ⟨by simp, by simp, rfl, rfl, ?_, ?_⟩
  · intro k vi hm
    simp at hm
  · intro i k hik
    simp at hik

theorem LoadInv.step {A B : Type} {conv : A → B} {o : Object A} {ks : List VTNIndex}
    {st st' : LoadState B} {k : VTNIndex}
    (inv : LoadInv conv o ks st) (h : processCorner conv o st k = .ok st') :
    LoadInv conv o (ks ++ [k]) st' := by
  rcases processCorner_ok_cases h with ⟨vi, hf, rfl⟩ | ⟨v, hf, hres, rfl⟩
  · -- cache hit: only an index is appended
    have hkmem : k ∈ st.cache.map Prod.fst :=
      List.mem_map_of_mem Prod.fst (assocFind_some_mem hf)
    refine ⟨inv.nodupKeys, ?_, inv.cacheLen, ?_, inv.cacheSound, ?_⟩
    · intro kk
      have h1 := inv.memKeys kk
      have h2 : k ∈ ks := (inv.memKeys k).mp hkmem
      simp only [List.mem_append, List.mem_singleton, h1]
      constructor
      · intro hm
        exact Or.inl hm
      · rintro (hm | rfl)
        · exact hm
        · exact h2
    · simp [inv.indicesLen]
    · intro i kk hik
      rcases Nat.lt_trichotomy i ks.length with hlt | heq | hgt
      · rw [List.getElem?_append_left hlt] at hik
        obtain ⟨vi2, hvi2, hsound⟩ := inv.indicesSound i kk hik
        refine ⟨vi2, ?_, hsound⟩
        have hlen : i < st.indices.length := by rw [inv.indicesLen]; exact hlt
        simpa [List.getElem?_append_left hlen] using hvi2
      · subst heq
        rw [List.getElem?_concat_length] at hik
        injection hik with hik
        subst hik
        refine ⟨vi, ?_, ?_⟩
        · have : st.indices.length = ks.length := inv.indicesLen
          rw [← this, List.getElem?_concat_length]
        · exact inv.cacheSound k vi (assocFind_some_mem hf)
      · exfalso
        have : (ks ++ [k]).length ≤ i := by simp; omega
        rw [List.getElem?_eq_none this] at hik
        cases hik
  · -- cache miss: a new vertex, cache entry and index are appended
    have hknot : k ∉ st.cache.map Prod.fst := assocFind_eq_none_iff.mp hf
    refine ⟨?_, ?_, ?_, ?_, ?_, ?_⟩
    · simpa using List.nodup_cons.mpr ⟨hknot, inv.nodupKeys⟩
    · intro kk
      have h1 := inv.memKeys kk
      simp only [List.map_cons, List.mem_cons, h1, List.mem_append, List.mem_singleton]
      tauto
    · simp [inv.cacheLen]
    · simp [inv.indicesLen]
    · intro kk vi hm
      rcases List.mem_cons.mp hm with heq | hold
      · injection heq with heq1 heq2
        subst heq1
        subst heq2
        refine ⟨st.vertices.length, by simp, rfl, ?_⟩
        rw [List.getElem?_concat_length, ← hres]
      · obtain ⟨j, hj, hw, hget⟩ := inv.cacheSound kk vi hold
        refine ⟨j, by simp; omega, hw, ?_⟩
        rw [List.getElem?_append_left hj, hget]
    · intro i kk hik
      rcases Nat.lt_trichotomy i ks.length with hlt | heq | hgt
      · rw [List.getElem?_append_left hlt] at hik
        obtain ⟨vi2, hvi2, j, hj, hw, hget⟩ := inv.indicesSound i kk hik
        have hlen : i < st.indices.length := by rw [inv.indicesLen]; exact hlt
        refine ⟨vi2, by simpa [List.getElem?_append_left hlen] using hvi2,
          j, by simp; omega, hw, ?_⟩
        rw [List.getElem?_append_left hj, hget]
      · subst heq
        rw [List.getElem?_concat_length] at hik
        injection hik with hik
        subst hik
        refine ⟨wrap32 st.vertices.length, ?_, st.vertices.length, by simp, rfl, ?_⟩
        · have : st.indices.length = ks.length := inv.indicesLen
          rw [← this, List.getElem?_concat_length]
        · rw [List.getElem?_concat_length, ← hres]
      · exfalso
        have : (ks ++ [k]).length ≤ i := by simp; omega
        rw [List.getElem?_eq_none this] at hik
        cases hik

theorem LoadInv.steps {A B : Type} {conv : A → B} {o : Object A} :
    ∀ {ks2 ks : List VTNIndex} {st st' : LoadState B},
      LoadInv conv o ks st → processCorners conv o st ks2 = .ok st' →
      LoadInv conv o (ks ++ ks2) st' := by
  intro ks2
  induction ks2 with
  | nil =>
    intro ks st st' inv h
    rw [processCorners_nil] at h
    injection h with h
    subst h
    simpa using inv
  | cons k rest ih =>
    intro ks st st' inv h
    rw [processCorners_cons] at h
    obtain ⟨st1, h1, h2⟩ := LoadResult.bind_eq_ok.mp h
    have inv1 := inv.step h1
    have := ih inv1 h2
    simpa [List.append_assoc] using this

theorem loadObjSet_ok_inv {A B : Type} {conv : A → B} {os : ObjSet A} {m : Obj B}
    {o : Object A} {g : Geometry}
    (h : loadObjSet conv os = .ok m) (ho : os.objects = [o]) (hg : o.geometry = [g]) :
    ∃ st : LoadState B, m = { vertices := st.vertices, indices := st.indices } ∧
      LoadInv conv o (allCorners g.shapes) st ∧
      (∀ s ∈ g.shapes, s.primitive.isTriangle = true) := by
  obtain ⟨o2, g2, st, ho2, hg2, hst, hm⟩ := loadObjSet_ok_elim h
  rw [ho] at ho2
  injection ho2 with ho3 _
  subst ho3
  rw [hg] at hg2
  injection hg2 with hg3 _
  subst hg3
  have htri := processShapes_ok_triangles hst
  rw [processShapes_eq_corners conv o g.shapes htri] at hst
  have inv := (LoadInv.emptyState conv o).steps hst
  exact ⟨st, hm, by simpa using inv, htri⟩

/-! ### Counting consequences of the invariant. -/

theorem LoadInv.vertices_length_eq_dedup {A B : Type} {conv : A → B} {o : Object A}
    {ks : List VTNIndex} {st : LoadState B} (inv : LoadInv conv o ks st) :
    st.vertices.length = ks.dedup.length := by
  have h1 : st.vertices.length = (st.cache.map Prod.fst).length := by
    rw [← inv.cacheLen, List.length_map]
  have hperm : List.Perm (st.cache.map Prod.fst) ks.dedup := by
    rw [List.perm_ext_iff_of_nodup inv.nodupKeys (List.nodup_dedup ks)]
    intro a
    rw [List.mem_dedup]
    exact inv.memKeys a
  rw [h1, hperm.length_eq]

theorem allCorners_length_of_triangles :
    ∀ (shapes : List Shape), (∀ s ∈ shapes, s.primitive.isTriangle = true) →
      (allCorners shapes).length = 3 * triangleCount shapes := by
  intro shapes
  induction shapes with
  | nil => intro _; rfl
  | cons hd tl ih =>
    intro htri
    have hhd := htri hd (List.mem_cons_self _ _)
    obtain ⟨a, b, c, habc⟩ := isTriangle_eq_true_iff.mp hhd
    have hsc : shapeCorners hd = [a, b, c] := by simp [shapeCorners, habc]
    have ihh := ih (fun s hs => htri s (List.mem_cons_of_mem _ hs))
    have e1 : allCorners (hd :: tl) = [a, b, c] ++ allCorners tl := by
      simp [allCorners, hsc]
    have e2 : triangleCount (hd :: tl) = triangleCount tl + 1 := by
      simp [triangleCount, List.countP_cons, hhd]
    rw [e1, e2, List.length_append, ihh]
    show 3 + 3 * triangleCount tl = 3 * (triangleCount tl + 1)
    omega

theorem loadObjSet_ok_full {A B : Type} {conv : A → B} {os : ObjSet A} {m : Obj B}
    (h : loadObjSet conv os = .ok m) :
    ∃ o g st, os.objects = [o] ∧ o.geometry = [g] ∧
      m = { vertices := st.vertices, indices := st.indices } ∧
      (∀ s ∈ g.shapes, s.primitive.isTriangle = true) ∧
      LoadInv conv o (allCorners g.shapes) st := by
  obtain ⟨o, g, st, ho, hg, hst, hm⟩ := loadObjSet_ok_elim h
  have htri := processShapes_ok_triangles hst
  rw [processShapes_eq_corners conv o g.shapes htri] at hst
  have inv := (LoadInv.emptyState conv o).steps hst
  exact ⟨o, g, st, ho, hg, hm, htri, by simpa using inv⟩

/-! ### The claims. -/

/-- Claim C1, counterexample: deduplication does not key on the
(position-index, normal-index) pair alone.  On `c1os` the first two corners
share position index 0 and normal index 0 and differ only in
texture-coordinate index, yet `Obj::load` emits two separate vertices for
them: the mesh has 3 vertices while only 2 distinct
(position-index, normal-index) pairs are referenced. -/
theorem claim1_counterexample :
    loadObjSet (id : Nat → Nat) c1os =
      .ok { vertices := [{ position := 10, normal := 30 },
                         { position := 10, normal := 30 },
                         { position := 20, normal := 30 }]
            indices := [0, 1, 2] } ∧
    pnKey { pos := 0, tex := some 0, nrm := some 0 } =
      pnKey { pos := 0, tex := some 1, nrm := some 0 } ∧
    ((allCorners c1shapes).map pnKey).dedup.length = 2 ∧
    (3 : Nat) ≠ 2 := by
  refine ⟨by decide, by decide, by decide, by decide⟩

/-- Claim C1, amended: deduplication keys on the full `VTNIndex` triple
(position index, texture-coordinate index, normal index): for every mesh
`Obj::load` returns, the number of `Vertex` entries equals the number of
distinct full corner-key triples referenced by the triangle corners. -/
theorem claim1_amended_dedup_full_key {A B : Type} (conv : A → B) (os : ObjSet A)
    (m : Obj B) (o : Object A) (g : Geometry)
    (h : loadObjSet conv os = .ok m) (ho : os.objects = [o]) (hg : o.geometry = [g]) :
    m.vertices.length = (allCorners g.shapes).dedup.length := by
  obtain ⟨st, hm, inv, _⟩ := loadObjSet_ok_inv h ho hg
  subst hm
  exact inv.vertices_length_eq_dedup

/-- Claim C1, witness for the amended theorem at the input `c1os`:
3 vertices, and 3 distinct full corner-key triples. -/
theorem claim1_witness :
    (Obj.mk [{ position := (10 : Nat), normal := 30 },
             { position := 10, normal := 30 },
             { position := 20, normal := 30 }] [0, 1, 2]).vertices.length =
      (allCorners c1geom.shapes).dedup.length :=
  claim1_amended_dedup_full_key id c1os _ c1obj c1geom (by decide) (by decide) (by decide)

/-- Claim C2: for every mesh `Obj::load` returns, every index in the index
sequence is strictly smaller than the length of the vertex sequence. -/
theorem claim2_index_validity {A B : Type} (conv : A → B) (os : ObjSet A) (m : Obj B)
    (h : loadObjSet conv os = .ok m) :
    ∀ i ∈ m.indices, i < m.vertices.length := by
  obtain ⟨o, g, st, ho, hg, hm, htri, inv⟩ := loadObjSet_ok_full h
  subst hm
  intro i hi
  obtain ⟨n, hn⟩ := List.mem_iff_getElem?.mp hi
  have hlen : n < st.indices.length := by
    by_contra hnl
    rw [List.getElem?_eq_none (Nat.le_of_not_lt hnl)] at hn
    cases hn
  have hkslen : n < (allCorners g.shapes).length := by
    rw [← inv.indicesLen]
    exact hlen
  obtain ⟨k, hk⟩ : ∃ k, (allCorners g.shapes)[n]? = some k := by
    rw [List.getElem?_eq_getElem hkslen]
    exact ⟨_, rfl⟩
  obtain ⟨vi, hvi, j, hj, hw, _⟩ := inv.indicesSound n k hk
  rw [hn] at hvi
  injection hvi with hvi
  subst hvi
  rw [hw]
  exact Nat.lt_of_le_of_lt (Nat.mod_le j (2 ^ 32)) hj

/-- Claim C2, witness at the mesh loaded from `c4os1`: index 0 is smaller
than the vertex count. -/
theorem claim2_witness : (0 : Nat) < c4mesh1.vertices.length :=
  claim2_index_validity id c4os1 c4mesh1 (by decide) 0 (by decide)

/-- Claim C3: for every input on which `Obj::load` succeeds, the index
sequence has length exactly 3 times the number of triangles in the source
geometry group. -/
theorem claim3_index_count {A B : Type} (conv : A → B) (os : ObjSet A) (m : Obj B)
    (o : Object A) (g : Geometry)
    (h : loadObjSet conv os = .ok m) (ho : os.objects = [o]) (hg : o.geometry = [g]) :
    m.indices.length = 3 * triangleCount g.shapes := by
  obtain ⟨st, hm, inv, htri⟩ := loadObjSet_ok_inv h ho hg
  subst hm
  show st.indices.length = _
  rw [inv.indicesLen, allCorners_length_of_triangles g.shapes htri]

/-- Claim C3, witness at `c4os2`: 6 indices for 2 triangles. -/
theorem claim3_witness : c4mesh2.indices.length = 3 * triangleCount c4geom2.shapes :=
  claim3_index_count id c4os2 c4mesh2 c4obj2 c4geom2 (by decide) (by decide) (by decide)

/-- Claim C4: the two concrete scenarios.  A single triangle on three
distinct (position, normal) keys yields 3 vertices and indices `[0, 1, 2]`;
adding a second triangle reusing the first two corner keys and introducing
one new key yields 4 vertices and indices `[0, 1, 2, 0, 1, 3]`. -/
theorem claim4_concrete_scenario :
    loadObjSet (id : Nat → Nat) c4os1 = .ok c4mesh1 ∧
    loadObjSet (id : Nat → Nat) c4os2 = .ok c4mesh2 := by
  refine ⟨by decide, by decide⟩

/-- Claim C8: on a successfully parsed input whose triangle corner holds an
out-of-range position index (`c8osPos`) or normal index (`c8osNrm`),
`Obj::load` panics with an index-out-of-bounds fault instead of returning an
error to the caller. -/
theorem claim8_oob_panics :
    loadObjSet (id : Nat → Nat) c8osPos = .fatal "index out of bounds" ∧
    loadObjSet (id : Nat → Nat) c8osNrm = .fatal "index out of bounds" ∧
    (loadObjSet (id : Nat → Nat) c8osPos).isErr = false ∧
    (loadObjSet (id : Nat → Nat) c8osNrm).isErr = false := by
  refine ⟨by decide, by decide, by decide, by decide⟩

/-- Claim C9, amended: provided the vertex sequence has at most `2 ^ 32`
entries (so the `usize → u32` cast is exact), the index stored for the
`i`-th corner points at exactly the vertex obtained by resolving that
corner's position and normal indices against the source coordinate
arrays. -/
theorem claim9_amended_resolution {A B : Type} (conv : A → B) (os : ObjSet A)
    (m : Obj B) (o : Object A) (g : Geometry)
    (h : loadObjSet conv os = .ok m) (ho : os.objects = [o]) (hg : o.geometry = [g])
    (hsmall : m.vertices.length ≤ 2 ^ 32) :
    ∀ (i : Nat) (k : VTNIndex), (allCorners g.shapes)[i]? = some k →
      ∃ vi, m.indices[i]? = some vi ∧ m.vertices[vi]? = resolveCorner conv o k := by
  obtain ⟨st, hm, inv, _⟩ := loadObjSet_ok_inv h ho hg
  subst hm
  intro i k hk
  obtain ⟨vi, hvi, j, hj, hw, hget⟩ := inv.indicesSound i k hk
  refine ⟨vi, hvi, ?_⟩
  have hjlt : j < 2 ^ 32 := Nat.lt_of_lt_of_le hj hsmall
  have hvij : vi = j := by
    rw [hw]
    exact Nat.mod_eq_of_lt hjlt
  rw [hvij]
  exact hget

/-- Claim C9, witness at `c4os1`: corner 1 is stored at index 1 and resolves
to the second vertex. -/
theorem claim9_witness :
    ∃ vi, c4mesh1.indices[1]? = some vi ∧
      c4mesh1.vertices[vi]? = resolveCorner id c4obj1 (key3 1 1) :=
  claim9_amended_resolution id c4os1 c4mesh1 c4obj1 c4geom1
    (by decide) (by decide) (by decide) (by decide) 1 (key3 1 1) (by decide)

/-- Claim C5, counterexample: it is not true that every parsed input
containing a non-triangle primitive yields the unsupported-primitive error:
on `c5os` the first shape's corner is missing its normal index, so the load
reports the missing-attribute error even though the second shape is a
non-triangle primitive. -/
theorem claim5_counterexample :
    loadObjSet (id : Nat → Nat) c5os = .err "missing normal for a vertex" ∧
    (c5shapes[1]?).map (fun s => s.primitive.isTriangle) = some false ∧
    "missing normal for a vertex" ≠ "unsupported non-triangle shape" := by
  refine ⟨by decide, by decide, by decide⟩

/-- Claim C5, amended: the structural checks are universal — any object
count other than 1 yields the object error, and with a single object any
geometry-group count other than 1 yields the geometry error; the
unsupported-primitive and missing-normal errors are reported for the first
failing shape or corner in source order: a non-triangle shape reached by
the loop errs with the unsupported-primitive message, and a reached corner
that misses the cache, has an in-range position index and no normal index
errs with the missing-attribute message.  All four messages are distinct
and all four conditions are returned errors, not panics. -/
theorem claim5_amended_error_reporting :
    (∀ {A B : Type} (conv : A → B) (os : ObjSet A), os.objects.length ≠ 1 →
        loadObjSet conv os = .err "expecting a single object") ∧
    (∀ {A B : Type} (conv : A → B) (os : ObjSet A) (o : Object A),
        os.objects = [o] → o.geometry.length ≠ 1 →
        loadObjSet conv os = .err "expecting a single geometry") ∧
    (∀ {A B : Type} (conv : A → B) (o : Object A) (st : LoadState B) (s : Shape),
        s.primitive.isTriangle = false →
        processShape conv o st s = .err "unsupported non-triangle shape") ∧
    (∀ {A B : Type} (conv : A → B) (o : Object A) (st : LoadState B) (k : VTNIndex),
        assocFind st.cache k = none → k.pos < o.vertices.length → k.nrm = none →
        processCorner conv o st k = .err "missing normal for a vertex") ∧
    ["expecting a single object", "expecting a single geometry",
     "unsupported non-triangle shape", "missing normal for a vertex"].Nodup := by
  refine ⟨?_, ?_, ?_, ?_, by decide⟩
  · intro A B conv os hlen
    obtain ⟨objs⟩ := os
    rcases objs with _ | ⟨o, _ | ⟨o2, orest⟩⟩
    · rfl
    · exact absurd rfl hlen
    · rfl
  · intro A B conv os o ho hlen
    obtain ⟨objs⟩ := os
    have hobjs : objs = [o] := ho
    subst hobjs
    simp only [loadObjSet, loadObjSetG]
    cases hg : o.geometry with
    | nil => rfl
    | cons g grest =>
      cases grest with
      | nil => exact absurd (by rw [hg]; rfl) hlen
      | cons g2 grest2 => rfl
  · intro A B conv o st s hs
    exact processShape_nonTriangle conv o st hs
  · intro A B conv o st k hf hpos hnrm
    obtain ⟨p, hp⟩ : ∃ p, o.vertices[k.pos]? = some p := by
      rw [List.getElem?_eq_getElem hpos]
      exact ⟨_, rfl⟩
    simp [processCorner, processCornerG, assocCache, hf, hp, hnrm]

/-- Claim C5, witness: each of the four error conditions at a concrete
input, via the amended theorem. -/
theorem claim5_witness :
    loadObjSet (id : Nat → Nat) { objects := [] } = .err "expecting a single object" ∧
    loadObjSet (id : Nat → Nat) twoGeomOs = .err "expecting a single geometry" ∧
    processShape id witObj startState { primitive := .line (key3 0 0) (key3 0 0) } =
      .err "unsupported non-triangle shape" ∧
    processCorner id witObj startState { pos := 0, tex := none, nrm := none } =
      .err "missing normal for a vertex" := by
  refine ⟨?_, ?_, ?_, ?_⟩
  · exact claim5_amended_error_reporting.1 id { objects := [] } (by decide)
  · exact claim5_amended_error_reporting.2.1 id twoGeomOs twoGeomObj (by decide) (by decide)
  · exact claim5_amended_error_reporting.2.2.1 id witObj startState
      { primitive := .line (key3 0 0) (key3 0 0) } (by decide)
  · exact claim5_amended_error_reporting.2.2.2.1 id witObj startState
      { pos := 0, tex := none, nrm := none } (by decide) (by decide) (by decide)

/-- Claim C6, counterexample: a read failure after a successful open hits
the `read_to_string(...).unwrap()` of line 84 and panics instead of being
returned to the caller: not every file I/O failure is a tagged result. -/
theorem claim6_counterexample :
    (load (parseFail "x") (id : Nat → Nat) (.readFail "disk error")).isFatal = true ∧
    (load (parseFail "x") (id : Nat → Nat) (.readFail "disk error")).isErr = false := by
  refine ⟨rfl, rfl⟩

/-- Claim C6, amended: open failures and parse failures are returned to the
caller as tagged error results, but a failure while reading an opened file
is raised as an uncatchable panic by the `unwrap` on line 84. -/
theorem claim6_amended_io_errors :
    (∀ {A B : Type} (parse : String → Except String (ObjSet A)) (conv : A → B)
        (e : String),
        load parse conv (.openFail e) = .err ("cannot open file: " ++ e)) ∧
    (∀ {A B : Type} (parse : String → Except String (ObjSet A)) (conv : A → B)
        (t e : String), parse t = .error e →
        load parse conv (.content t) = .err ("cannot parse: " ++ e)) ∧
    (∀ {A B : Type} (parse : String → Except String (ObjSet A)) (conv : A → B)
        (e : String), (load parse conv (.readFail e)).isFatal = true) := by
  refine ⟨?_, ?_, ?_⟩
  · intro A B parse conv e
    rfl
  · intro A B parse conv t e hp
    simp [load, loadG, hp]
  · intro A B parse conv e
    rfl

/-- Claim C6, witness: a failing parse at a concrete input is returned as a
tagged parse error, via the amended theorem. -/
theorem claim6_witness :
    load (parseFail "bad") (id : Nat → Nat) (.content "text") =
      .err ("cannot parse: " ++ "bad") :=
  claim6_amended_io_errors.2.1 (parseFail "bad") id "text" "bad" rfl

/-! ### Independence from the cache implementation (order determinism). -/

theorem assocLawful : LawfulCacheOps assocCache := by
  refine ⟨?_, ?_, ?_⟩
  · intro k
    rfl
  · intro m k v
    simp [assocCache, assocFind]
  · intro m k kk v hne
    simp [assocCache, assocFind, hne]

theorem processCornerG_rel {M1 M2 A B : Type} {impl1 : CacheOps M1} {impl2 : CacheOps M2}
    (law1 : LawfulCacheOps impl1) (law2 : LawfulCacheOps impl2)
    (mk : Nat → Nat) (conv : A → B) (o : Object A)
    {st1 : LoadStateG M1 B} {st2 : LoadStateG M2 B}
    (hrel : StateRel impl1 impl2 st1 st2) (key : VTNIndex) :
    ResultRel impl1 impl2 (processCornerG impl1 mk conv o st1 key)
      (processCornerG impl2 mk conv o st2 key) := by
  obtain ⟨hv, hi, hc⟩ := hrel
  cases hf : impl1.find st1.cache key with
  | some vi =>
    have hf2 : impl2.find st2.cache key = some vi := by
      rw [← hc]
      exact hf
    refine Or.inl ⟨{ st1 with indices := st1.indices ++ [vi] },
      { st2 with indices := st2.indices ++ [vi] }, ?_, ?_, ?_⟩
    · simp [processCornerG, hf]
    · simp [processCornerG, hf2]
    · exact ⟨hv, by rw [hi], hc⟩
  | none =>
    have hf2 : impl2.find st2.cache key = none := by
      rw [← hc]
      exact hf
    cases hp : o.vertices[key.pos]? with
    | none =>
      refine Or.inr (Or.inr ⟨"index out of bounds", ?_, ?_⟩)
      · simp [processCornerG, hf, hp]
      · simp [processCornerG, hf2, hp]
    | some p =>
      cases hn : key.nrm with
      | none =>
        refine Or.inr (Or.inl ⟨"missing normal for a vertex", ?_, ?_⟩)
        · simp [processCornerG, hf, hp, hn]
        · simp [processCornerG, hf2, hp, hn]
      | some ni =>
        cases hm : o.normals[ni]? with
        | none =>
          refine Or.inr (Or.inr ⟨"index out of bounds", ?_, ?_⟩)
          · simp [processCornerG, hf, hp, hn, hm]
          · simp [processCornerG, hf2, hp, hn, hm]
        | some n =>
          refine Or.inl
            ⟨{ cache := impl1.insert st1.cache key (mk st1.vertices.length)
               vertices := st1.vertices ++ [{ position := conv p, normal := conv n }]
               indices := st1.indices ++ [mk st1.vertices.length] },
             { cache := impl2.insert st2.cache key (mk st2.vertices.length)
               vertices := st2.vertices ++ [{ position := conv p, normal := conv n }]
               indices := st2.indices ++ [mk st2.vertices.length] }, ?_, ?_, ?_⟩
          · simp [processCornerG, hf, hp, hn, hm]
          · simp [processCornerG, hf2, hp, hn, hm]
          · refine ⟨by rw [hv], by rw [hv, hi], ?_⟩
            intro kk
            by_cases hkk : key = kk
            · subst hkk
              rw [law1.find_insert_self, law2.find_insert_self, hv]
            · rw [law1.find_insert_ne _ _ _ _ hkk, law2.find_insert_ne _ _ _ _ hkk]
              exact hc kk

theorem processCornersG_rel {M1 M2 A B : Type} {impl1 : CacheOps M1} {impl2 : CacheOps M2}
    (law1 : LawfulCacheOps impl1) (law2 : LawfulCacheOps impl2)
    (mk : Nat → Nat) (conv : A → B) (o : Object A) :
    ∀ (ks : List VTNIndex) {st1 : LoadStateG M1 B} {st2 : LoadStateG M2 B},
      StateRel impl1 impl2 st1 st2 →
      ResultRel impl1 impl2 (processCornersG impl1 mk conv o st1 ks)
        (processCornersG impl2 mk conv o st2 ks) := by
  intro ks
  induction ks with
  | nil =>
    intro st1 st2 hrel
    exact Or.inl ⟨st1, st2, rfl, rfl, hrel⟩
  | cons k rest ih =>
    intro st1 st2 hrel
    rcases processCornerG_rel law1 law2 mk conv o hrel k with
      ⟨st1e, st2e, h1, h2, hrel2⟩ | ⟨e, h1, h2⟩ | ⟨e, h1, h2⟩
    · show ResultRel impl1 impl2
        ((processCornerG impl1 mk conv o st1 k).bind _)
        ((processCornerG impl2 mk conv o st2 k).bind _)
      rw [h1, h2]
      exact ih hrel2
    · refine Or.inr (Or.inl ⟨e, ?_, ?_⟩)
      · show (processCornerG impl1 mk conv o st1 k).bind _ = _
        rw [h1]
        rfl
      · show (processCornerG impl2 mk conv o st2 k).bind _ = _
        rw [h2]
        rfl
    · refine Or.inr (Or.inr ⟨e, ?_, ?_⟩)
      · show (processCornerG impl1 mk conv o st1 k).bind _ = _
        rw [h1]
        rfl
      · show (processCornerG impl2 mk conv o st2 k).bind _ = _
        rw [h2]
        rfl

theorem processShapeG_triangle {M A B : Type} (impl : CacheOps M) (mk : Nat → Nat)
    (conv : A → B) (o : Object A) (st : LoadStateG M B) (a b c : VTNIndex) :
    processShapeG impl mk conv o st { primitive := .triangle a b c } =
      processCornersG impl mk conv o st [a, b, c] := by
  show (processCornerG impl mk conv o st a).bind _ =
    (processCornerG impl mk conv o st a).bind _
  cases processCornerG impl mk conv o st a with
  | err m => rfl
  | fatal m => rfl
  | ok st1 =>
    show (processCornerG impl mk conv o st1 b).bind _ =
      (processCornerG impl mk conv o st1 b).bind _
    cases processCornerG impl mk conv o st1 b with
    | err m => rfl
    | fatal m => rfl
    | ok st2 =>
      show processCornerG impl mk conv o st2 c =
        (processCornerG impl mk conv o st2 c).bind (fun st3 => processCornersG impl mk conv o st3 [])
      exact (LoadResult.bind_ok_id _).symm

theorem processShapeG_rel {M1 M2 A B : Type} {impl1 : CacheOps M1} {impl2 : CacheOps M2}
    (law1 : LawfulCacheOps impl1) (law2 : LawfulCacheOps impl2)
    (mk : Nat → Nat) (conv : A → B) (o : Object A)
    {st1 : LoadStateG M1 B} {st2 : LoadStateG M2 B}
    (hrel : StateRel impl1 impl2 st1 st2) (s : Shape) :
    ResultRel impl1 impl2 (processShapeG impl1 mk conv o st1 s)
      (processShapeG impl2 mk conv o st2 s) := by
  obtain ⟨prim⟩ := s
  cases prim with
  | point a => exact Or.inr (Or.inl ⟨"unsupported non-triangle shape", rfl, rfl⟩)
  | line a b => exact Or.inr (Or.inl ⟨"unsupported non-triangle shape", rfl, rfl⟩)
  | triangle a b c =>
    rw [processShapeG_triangle, processShapeG_triangle]
    exact processCornersG_rel law1 law2 mk conv o [a, b, c] hrel

theorem processShapesG_rel {M1 M2 A B : Type} {impl1 : CacheOps M1} {impl2 : CacheOps M2}
    (law1 : LawfulCacheOps impl1) (law2 : LawfulCacheOps impl2)
    (mk : Nat → Nat) (conv : A → B) (o : Object A) :
    ∀ (shapes : List Shape) {st1 : LoadStateG M1 B} {st2 : LoadStateG M2 B},
      StateRel impl1 impl2 st1 st2 →
      ResultRel impl1 impl2 (processShapesG impl1 mk conv o st1 shapes)
        (processShapesG impl2 mk conv o st2 shapes) := by
  intro shapes
  induction shapes with
  | nil =>
    intro st1 st2 hrel
    exact Or.inl ⟨st1, st2, rfl, rfl, hrel⟩
  | cons s rest ih =>
    intro st1 st2 hrel
    rcases processShapeG_rel law1 law2 mk conv o hrel s with
      ⟨st1e, st2e, h1, h2, hrel2⟩ | ⟨e, h1, h2⟩ | ⟨e, h1, h2⟩
    · show ResultRel impl1 impl2
        ((processShapeG impl1 mk conv o st1 s).bind _)
        ((processShapeG impl2 mk conv o st2 s).bind _)
      rw [h1, h2]
      exact ih hrel2
    · refine Or.inr (Or.inl ⟨e, ?_, ?_⟩)
      · show (processShapeG impl1 mk conv o st1 s).bind _ = _
        rw [h1]
        rfl
      · show (processShapeG impl2 mk conv o st2 s).bind _ = _
        rw [h2]
        rfl
    · refine Or.inr (Or.inr ⟨e, ?_, ?_⟩)
      · show (processShapeG impl1 mk conv o st1 s).bind _ = _
        rw [h1]
        rfl
      · show (processShapeG impl2 mk conv o st2 s).bind _ = _
        rw [h2]
        rfl

theorem loadObjSetG_rel {M1 M2 A B : Type} {impl1 : CacheOps M1} {impl2 : CacheOps M2}
    (law1 : LawfulCacheOps impl1) (law2 : LawfulCacheOps impl2)
    (mk : Nat → Nat) (conv : A → B) (os : ObjSet A) :
    loadObjSetG impl1 mk conv os = loadObjSetG impl2 mk conv os := by
  obtain ⟨objs⟩ := os
  rcases objs with _ | ⟨o, _ | ⟨o2, orest⟩⟩
  · rfl
  · simp only [loadObjSetG]
    cases hg : o.geometry with
    | nil => rfl
    | cons g grest =>
      cases grest with
      | cons g2 grest2 => rfl
      | nil =>
        have hrel0 : StateRel impl1 impl2
            { cache := impl1.empty, vertices := ([] : List (Vertex B)), indices := [] }
            { cache := impl2.empty, vertices := [], indices := [] } :=
          ⟨rfl, rfl, fun k => by rw [law1.find_empty, law2.find_empty]⟩
        show (processShapesG impl1 mk conv o
              { cache := impl1.empty, vertices := [], indices := [] } g.shapes).bind
            (fun st => (LoadResult.ok { vertices := st.vertices, indices := st.indices } :
              LoadResult (Obj B))) =
          (processShapesG impl2 mk conv o
              { cache := impl2.empty, vertices := [], indices := [] } g.shapes).bind
            (fun st => (LoadResult.ok { vertices := st.vertices, indices := st.indices } :
              LoadResult (Obj B)))
        rcases processShapesG_rel law1 law2 mk conv o g.shapes hrel0 with
          ⟨st1e, st2e, h1, h2, hv, hi, _⟩ | ⟨e, h1, h2⟩ | ⟨e, h1, h2⟩
        · rw [h1, h2]
          simp only [LoadResult.bind, hv, hi]
        · rw [h1, h2]
          rfl
        · rw [h1, h2]
          rfl
  · rfl

/-- Claim C7: order determinism.  The result of `Obj::load` depends only on
the source input, not on the hidden internal state of the deduplication
`HashMap`: for every lawful cache implementation (in particular for the
hash map of any run, whatever its random hash seed), the loader computes
exactly the same result as the reference association-list run, so two
invocations on the same source text yield identical vertex order and index
sequences. -/
theorem claim7_order_determinism {M : Type} (impl : CacheOps M)
    (law : LawfulCacheOps impl) {A B : Type}
    (parse : String → Except String (ObjSet A)) (conv : A → B) (file : FileAccess) :
    loadG impl wrap32 parse conv file = load parse conv file := by
  cases file with
  | openFail e => rfl
  | readFail e => rfl
  | content t =>
    show loadG impl wrap32 parse conv (.content t) = loadG assocCache wrap32 parse conv (.content t)
    simp only [loadG]
    cases parse t with
    | error e => rfl
    | ok os => exact loadObjSetG_rel law assocLawful wrap32 conv os

/-- Claim C7, witness: the loader over the association-list cache run twice
(as two lawful implementations) at a concrete input. -/
theorem claim7_witness :
    loadG assocCache wrap32 (parseConst c4os1) (id : Nat → Nat) (.content "x") =
      load (parseConst c4os1) id (.content "x") :=
  claim7_order_determinism assocCache assocLawful (parseConst c4os1) id (.content "x")

/-! ### A run on all-fresh corner keys, and the wrap-around input. -/

theorem processCorners_fresh {A B : Type} (conv : A → B) (o : Object A)
    (f : VTNIndex → Vertex B) :
    ∀ (ks : List VTNIndex) (st : LoadState B),
      ks.Nodup →
      (∀ k ∈ ks, assocFind st.cache k = none) →
      (∀ k ∈ ks, resolveCorner conv o k = some (f k)) →
      ∃ c : Cache, processCorners conv o st ks =
        .ok { cache := c
              vertices := st.vertices ++ ks.map f
              indices := st.indices ++
                (List.range ks.length).map (fun i => wrap32 (st.vertices.length + i)) } := by
  intro ks
  induction ks with
  | nil =>
    intro st _ _ _
    exact ⟨st.cache, by simp [processCorners_nil]⟩
  | cons k rest ih =>
    intro st hnd hfresh hres
    obtain ⟨hknot, hndrest⟩ := List.nodup_cons.mp hnd
    have hk := processCorner_miss (hfresh k (List.mem_cons_self _ _))
      (hres k (List.mem_cons_self _ _))
    have hfresh1 : ∀ kk ∈ rest,
        assocFind ((k, wrap32 st.vertices.length) :: st.cache) kk = none := by
      intro kk hkk
      have hne : k ≠ kk := by
        rintro rfl
        exact hknot hkk
      simp only [assocFind, hne, if_false]
      exact hfresh kk (List.mem_cons_of_mem _ hkk)
    have hres1 : ∀ kk ∈ rest, resolveCorner conv o kk = some (f kk) :=
      fun kk hkk => hres kk (List.mem_cons_of_mem _ hkk)
    obtain ⟨c, hrest⟩ := ih
      { cache := (k, wrap32 st.vertices.length) :: st.cache
        vertices := st.vertices ++ [f k]
        indices := st.indices ++ [wrap32 st.vertices.length] }
      hndrest hfresh1 hres1
    refine ⟨c, ?_⟩
    rw [processCorners_cons, hk]
    show processCorners conv o _ rest = _
    rw [hrest]
    have hv : (st.vertices ++ [f k]) ++ rest.map f = st.vertices ++ (k :: rest).map f := by
      rw [List.append_assoc]
      rfl
    have hlen1 : (st.vertices ++ [f k]).length = st.vertices.length + 1 := by
      simp
    have hidx : (st.indices ++ [wrap32 st.vertices.length]) ++
        (List.range rest.length).map
          (fun i => wrap32 ((st.vertices ++ [f k]).length + i)) =
        st.indices ++ (List.range (k :: rest).length).map
          (fun i => wrap32 (st.vertices.length + i)) := by
      rw [List.append_assoc]
      congr 1
      show wrap32 st.vertices.length ::
        (List.range rest.length).map (fun i => wrap32 ((st.vertices ++ [f k]).length + i)) = _
      rw [List.length_cons, List.range_succ_eq_map, List.map_cons, List.map_map]
      congr 1
      apply List.map_congr_left
      intro i _
      show wrap32 ((st.vertices ++ [f k]).length + i) = wrap32 (st.vertices.length + (i + 1))
      rw [hlen1]
      congr 1
      omega
    rw [hv] at hrest ⊢
    rw [hidx]

theorem allCorners_append (l1 l2 : List Shape) :
    allCorners (l1 ++ l2) = allCorners l1 ++ allCorners l2 := by
  simp [allCorners]

theorem allCorners_bigShapes_aux :
    ∀ n : Nat, allCorners ((List.range n).map bigShape) =
      (List.range (3 * n)).map bigKey := by
  intro n
  induction n with
  | zero => rfl
  | succ m ih =>
    have hr : List.range (3 * (m + 1)) =
        List.range (3 * m) ++ [3 * m, 3 * m + 1, 3 * m + 2] := by
      have e1 : 3 * (m + 1) = 3 * m + 1 + 1 + 1 := by omega
      rw [e1, List.range_succ, List.range_succ, List.range_succ]
      have e2 : 3 * m + 1 + 1 = 3 * m + 2 := by omega
      rw [e2]
      simp [List.append_assoc]
    rw [List.range_succ, List.map_append, allCorners_append, ih, hr, List.map_append]
    congr 1

theorem allCorners_bigShapes :
    allCorners bigShapes = (List.range (3 * N32)).map bigKey :=
  allCorners_bigShapes_aux N32

theorem resolve_bigKey {j : Nat} (hj : j < 3 * N32) :
    resolveCorner (id : Nat → Nat) bigObject (bigKey j) =
      some { position := j, normal := 7 } := by
  apply resolveCorner_eq_some.mpr
  refine ⟨j, 0, 7, ?_, ?_, ?_, rfl⟩
  · have e1 : bigObject.vertices = bigVerts := by simp only [bigObject]
    have e2 : (bigKey j).pos = j := by simp only [bigKey]
    have e3 : bigVerts = List.range (3 * N32) := rfl
    rw [e1, e2, e3]
    exact List.getElem?_range hj
  · simp only [bigKey]
  · have e4 : bigObject.normals = [7] := by simp only [bigObject]
    rw [e4]
    rfl

theorem bigKey_injective : Function.Injective bigKey :=
  fun _ _ h => congrArg VTNIndex.pos h

theorem bigCorners_nodup : ((List.range (3 * N32)).map bigKey).Nodup :=
  (List.nodup_range _).map bigKey_injective

theorem bigShapes_triangles : ∀ s ∈ bigShapes, s.primitive.isTriangle = true := by
  intro s hs
  obtain ⟨j, _, rfl⟩ := List.mem_map.mp hs
  rfl

theorem loadObjSet_singleton_eq {A B : Type} (conv : A → B) (o : Object A) (g : Geometry)
    (hg : o.geometry = [g]) (os : ObjSet A) (ho : os.objects = [o]) :
    loadObjSet conv os =
      (processShapes conv o { cache := [], vertices := [], indices := [] } g.shapes).bind
        (fun st => .ok { vertices := st.vertices, indices := st.indices }) := by
  obtain ⟨objs⟩ := os
  have hobjs : objs = [o] := ho
  subst hobjs
  simp only [loadObjSet, loadObjSetG]
  cases hgg : o.geometry with
  | nil =>
    rw [hg] at hgg
    cases hgg
  | cons g1 grest =>
    cases grest with
    | nil =>
      rw [hg] at hgg
      injection hgg with h1 h2
      subst h1
      rfl
    | cons g2 grest2 =>
      rw [hg] at hgg
      injection hgg with h1 h2
      cases h2

theorem bigObjSet_run : loadObjSet (id : Nat → Nat) bigObjSet = .ok bigMesh := by
  rw [loadObjSet_singleton_eq id bigObject bigGeom (by simp only [bigObject]) bigObjSet
    (by simp only [bigObjSet])]
  have eshapes : bigGeom.shapes = bigShapes := by simp only [bigGeom]
  rw [eshapes, processShapes_eq_corners id bigObject bigShapes bigShapes_triangles,
    allCorners_bigShapes]
  obtain ⟨c, hrun⟩ := processCorners_fresh id bigObject
    (fun k => { position := k.pos, normal := 7 })
    ((List.range (3 * N32)).map bigKey)
    { cache := [], vertices := [], indices := [] }
    bigCorners_nodup
    (fun k _ => rfl)
    (by
      intro k hk
      obtain ⟨j, hj, rfl⟩ := List.mem_map.mp hk
      exact resolve_bigKey (List.mem_range.mp hj))
  rw [hrun, LoadResult.ok_bind]
  have hverts : ([] : List (Vertex Nat)) ++
      ((List.range (3 * N32)).map bigKey).map
        (fun k => ({ position := k.pos, normal := 7 } : Vertex Nat)) =
      (List.range (3 * N32)).map (fun j => ({ position := j, normal := 7 } : Vertex Nat)) := by
    rw [List.nil_append, List.map_map]
    apply List.map_congr_left
    intro j _
    rfl
  have hlen : ((List.range (3 * N32)).map bigKey).length = 3 * N32 := by
    rw [List.length_map, List.length_range]
  have hinds : ([] : List Nat) ++
      (List.range ((List.range (3 * N32)).map bigKey).length).map
        (fun i => wrap32 (([] : List (Vertex Nat)).length + i)) =
      (List.range (3 * N32)).map wrap32 := by
    rw [List.nil_append, hlen]
    apply List.map_congr_left
    intro i _
    show wrap32 (0 + i) = wrap32 i
    rw [Nat.zero_add]
  have hobj : Obj.mk
      (([] : List (Vertex Nat)) ++
        ((List.range (3 * N32)).map bigKey).map
          (fun k => ({ position := k.pos, normal := 7 } : Vertex Nat)))
      (([] : List Nat) ++
        (List.range ((List.range (3 * N32)).map bigKey).length).map
          (fun i => wrap32 (([] : List (Vertex Nat)).length + i))) = bigMesh := by
    rw [hverts, hinds]
    rfl
  exact congrArg LoadResult.ok hobj

/-! ### Exactness of the index cast below the u32 bound. -/

theorem toFinset_card_eq_dedup_length {α : Type} [DecidableEq α] (l : List α) :
    l.toFinset.card = l.dedup.length := by
  rw [← List.toFinset_card_of_nodup (List.nodup_dedup l)]
  congr 1
  apply Finset.ext
  intro a
  simp [List.mem_toFinset, List.mem_dedup]

theorem processCorners_cache_facts {A B : Type} {conv : A → B} {o : Object A} :
    ∀ {ks : List VTNIndex} {st st' : LoadState B},
      processCorners conv o st ks = .ok st' →
      (st.cache.map Prod.fst).Nodup →
      st.cache.length = st.vertices.length →
      ((st'.cache.map Prod.fst).Nodup ∧
        st'.cache.length = st'.vertices.length ∧
        ∀ x ∈ st'.cache.map Prod.fst, x ∈ st.cache.map Prod.fst ∨ x ∈ ks) := by
  intro ks
  induction ks with
  | nil =>
    intro st st' h hnd hlen
    rw [processCorners_nil] at h
    injection h with h
    subst h
    exact ⟨hnd, hlen, fun x hx => Or.inl hx⟩
  | cons k rest ih =>
    intro st st' h hnd hlen
    rw [processCorners_cons] at h
    obtain ⟨st1, h1, h2⟩ := LoadResult.bind_eq_ok.mp h
    rcases processCorner_ok_cases h1 with ⟨vi, hf, rfl⟩ | ⟨v, hf, hres, rfl⟩
    · obtain ⟨hnd1, hlen1, hsub⟩ := ih h2 hnd hlen
      exact ⟨hnd1, hlen1, fun x hx => (hsub x hx).imp id (List.mem_cons_of_mem k)⟩
    · have hknot := assocFind_eq_none_iff.mp hf
      have hnd1 : (((k, wrap32 st.vertices.length) :: st.cache).map Prod.fst).Nodup := by
        simpa using List.nodup_cons.mpr ⟨hknot, hnd⟩
      have hlen1 : ((k, wrap32 st.vertices.length) :: st.cache).length =
          (st.vertices ++ [v]).length := by
        simp [hlen]
      obtain ⟨hnd2, hlen2, hsub⟩ := ih h2 hnd1 hlen1
      refine ⟨hnd2, hlen2, fun x hx => ?_⟩
      rcases hsub x hx with hx1 | hx1
      · simp only [List.map_cons, List.mem_cons] at hx1
        rcases hx1 with rfl | hx2
        · exact Or.inr (List.mem_cons_self _ _)
        · exact Or.inl hx2
      · exact Or.inr (List.mem_cons_of_mem _ hx1)

theorem processCorners_exact {A B : Type} (conv : A → B) (o : Object A) :
    ∀ (ks : List VTNIndex) (st : LoadState B),
      (st.cache.map Prod.fst).Nodup →
      st.cache.length = st.vertices.length →
      (st.cache.map Prod.fst ++ ks).toFinset.card ≤ 2 ^ 32 →
      processCorners conv o st ks = processCornersG assocCache id conv o st ks := by
  intro ks
  induction ks with
  | nil =>
    intro st _ _ _
    rfl
  | cons k rest ih =>
    intro st hnd hlen hcard
    show (processCornerG assocCache wrap32 conv o st k).bind _ =
      (processCornerG assocCache id conv o st k).bind _
    cases hf : assocFind st.cache k with
    | some vi =>
      have e1 : processCornerG assocCache wrap32 conv o st k =
          .ok { st with indices := st.indices ++ [vi] } := processCorner_hit hf
      have e2 : processCornerG assocCache id conv o st k =
          .ok { st with indices := st.indices ++ [vi] } := by
        simp [processCornerG, assocCache, hf]
      rw [e1, e2]
      show processCorners conv o { st with indices := st.indices ++ [vi] } rest =
        processCornersG assocCache id conv o { st with indices := st.indices ++ [vi] } rest
      exact ih { st with indices := st.indices ++ [vi] } hnd hlen (by
        refine le_trans (Finset.card_le_card ?_) hcard
        intro x hx
        simp only [List.mem_toFinset, List.mem_append, List.mem_cons] at hx ⊢
        tauto)
    | none =>
      cases hp : o.vertices[k.pos]? with
      | none =>
        have e1 : processCornerG assocCache wrap32 conv o st k =
            .fatal "index out of bounds" := by
          simp [processCornerG, assocCache, hf, hp]
        have e2 : processCornerG assocCache id conv o st k =
            .fatal "index out of bounds" := by
          simp [processCornerG, assocCache, hf, hp]
        rw [e1, e2]
        rfl
      | some p =>
        cases hn : k.nrm with
        | none =>
          have e1 : processCornerG assocCache wrap32 conv o st k =
              .err "missing normal for a vertex" := by
            simp [processCornerG, assocCache, hf, hp, hn]
          have e2 : processCornerG assocCache id conv o st k =
              .err "missing normal for a vertex" := by
            simp [processCornerG, assocCache, hf, hp, hn]
          rw [e1, e2]
          rfl
        | some ni =>
          cases hm : o.normals[ni]? with
          | none =>
            have e1 : processCornerG assocCache wrap32 conv o st k =
                .fatal "index out of bounds" := by
              simp [processCornerG, assocCache, hf, hp, hn, hm]
            have e2 : processCornerG assocCache id conv o st k =
                .fatal "index out of bounds" := by
              simp [processCornerG, assocCache, hf, hp, hn, hm]
            rw [e1, e2]
            rfl
          | some n =>
            have hknot : k ∉ st.cache.map Prod.fst := assocFind_eq_none_iff.mp hf
            have hsmall : st.vertices.length < 2 ^ 32 := by
              have h1 : insert k (st.cache.map Prod.fst).toFinset ⊆
                  (st.cache.map Prod.fst ++ k :: rest).toFinset := by
                intro x hx
                rcases Finset.mem_insert.mp hx with rfl | hx2
                · simp [List.mem_toFinset, List.mem_append]
                · simp only [List.mem_toFinset] at hx2
                  simp [List.mem_toFinset, List.mem_append, hx2]
              have h2 := Finset.card_le_card h1
              rw [Finset.card_insert_of_not_mem
                (by simpa [List.mem_toFinset] using hknot)] at h2
              rw [List.toFinset_card_of_nodup hnd] at h2
              have h3 : (st.cache.map Prod.fst).length = st.vertices.length := by
                rw [List.length_map]
                exact hlen
              have h4 := le_trans h2 hcard
              omega
            have hw : wrap32 st.vertices.length = st.vertices.length :=
              Nat.mod_eq_of_lt hsmall
            have e1 : processCornerG assocCache wrap32 conv o st k =
                .ok { cache := (k, st.vertices.length) :: st.cache
                      vertices := st.vertices ++ [{ position := conv p, normal := conv n }]
                      indices := st.indices ++ [st.vertices.length] } := by
              simp [processCornerG, assocCache, hf, hp, hn, hm, hw]
            have e2 : processCornerG assocCache id conv o st k =
                .ok { cache := (k, st.vertices.length) :: st.cache
                      vertices := st.vertices ++ [{ position := conv p, normal := conv n }]
                      indices := st.indices ++ [st.vertices.length] } := by
              simp [processCornerG, assocCache, hf, hp, hn, hm]
            rw [e1, e2]
            show processCorners conv o
                { cache := (k, st.vertices.length) :: st.cache
                  vertices := st.vertices ++ [{ position := conv p, normal := conv n }]
                  indices := st.indices ++ [st.vertices.length] } rest =
              processCornersG assocCache id conv o
                { cache := (k, st.vertices.length) :: st.cache
                  vertices := st.vertices ++ [{ position := conv p, normal := conv n }]
                  indices := st.indices ++ [st.vertices.length] } rest
            exact ih
              { cache := (k, st.vertices.length) :: st.cache
                vertices := st.vertices ++ [{ position := conv p, normal := conv n }]
                indices := st.indices ++ [st.vertices.length] }
              (by simpa using List.nodup_cons.mpr ⟨hknot, hnd⟩)
              (by simp [hlen])
              (by
                refine le_trans (Finset.card_le_card ?_) hcard
                intro x hx
                simp only [List.mem_toFinset, List.map_cons, List.mem_append,
                  List.mem_cons] at hx ⊢
                tauto)

theorem processShapes_exact {A B : Type} (conv : A → B) (o : Object A) :
    ∀ (shapes : List Shape) (st : LoadState B),
      (st.cache.map Prod.fst).Nodup →
      st.cache.length = st.vertices.length →
      (st.cache.map Prod.fst ++ allCorners shapes).toFinset.card ≤ 2 ^ 32 →
      processShapes conv o st shapes = processShapesG assocCache id conv o st shapes := by
  intro shapes
  induction shapes with
  | nil =>
    intro st _ _ _
    rfl
  | cons s rest ih =>
    intro st hnd hlen hcard
    obtain ⟨prim⟩ := s
    cases prim with
    | point a => rfl
    | line a b => rfl
    | triangle a b c =>
      have ecorners : allCorners ({ primitive := .triangle a b c } :: rest) =
          [a, b, c] ++ allCorners rest := by
        simp [allCorners, shapeCorners]
      show (processShapeG assocCache wrap32 conv o st { primitive := .triangle a b c }).bind _ =
        (processShapeG assocCache id conv o st { primitive := .triangle a b c }).bind _
      rw [processShapeG_triangle, processShapeG_triangle]
      have hsub3 : (st.cache.map Prod.fst ++ [a, b, c]).toFinset.card ≤ 2 ^ 32 := by
        refine le_trans (Finset.card_le_card ?_) hcard
        intro x hx
        simp only [List.mem_toFinset, List.mem_append, List.mem_cons, ecorners] at hx ⊢
        tauto
      have hc3 : processCornersG assocCache wrap32 conv o st [a, b, c] =
          processCornersG assocCache id conv o st [a, b, c] :=
        processCorners_exact conv o [a, b, c] st hnd hlen hsub3
      rw [hc3]
      cases hres : processCornersG assocCache id conv o st [a, b, c] with
      | err e => rfl
      | fatal e => rfl
      | ok st1 =>
        show processShapesG assocCache wrap32 conv o st1 rest =
          processShapesG assocCache id conv o st1 rest
        have hwrap : processCorners conv o st [a, b, c] = .ok st1 := hc3.trans hres
        obtain ⟨hnd1, hlen1, hsub⟩ := processCorners_cache_facts hwrap hnd hlen
        show processShapes conv o st1 rest = processShapesG assocCache id conv o st1 rest
        exact ih st1 hnd1 hlen1 (by
          refine le_trans (Finset.card_le_card ?_) hcard
          intro x hx
          simp only [List.mem_toFinset, List.mem_append, ecorners] at hx ⊢
          rcases hx with hx | hx
          · rcases hsub x hx with h | h
            · exact Or.inl h
            · exact Or.inr (Or.inl h)
          · exact Or.inr (Or.inr hx))

theorem N32_lt_len : N32 < 3 * N32 := by
  have : 0 < N32 := by norm_num [N32]
  omega

theorem wrap32_N32 : wrap32 N32 = 0 := by
  simp [wrap32, N32]

theorem bigMesh_indices_N32 : bigMesh.indices[N32]? = some 0 := by
  have e : bigMesh.indices = (List.range (3 * N32)).map wrap32 := by
    simp only [bigMesh]
  rw [e, List.getElem?_map, List.getElem?_range N32_lt_len]
  show some (wrap32 N32) = some 0
  rw [wrap32_N32]

theorem bigMesh_vertices_0 :
    bigMesh.vertices[0]? = some { position := 0, normal := 7 } := by
  have e : bigMesh.vertices =
      (List.range (3 * N32)).map
        (fun j => ({ position := j, normal := 7 } : Vertex Nat)) := by
    simp only [bigMesh]
  have h0 : (0 : Nat) < 3 * N32 := by norm_num [N32]
  rw [e, List.getElem?_map, List.getElem?_range h0]
  rfl

theorem bigCorners_at_N32 :
    (allCorners bigGeom.shapes)[N32]? = some (bigKey N32) := by
  have e : bigGeom.shapes = bigShapes := by simp only [bigGeom]
  rw [e, allCorners_bigShapes, List.getElem?_map, List.getElem?_range N32_lt_len]
  rfl

/-- Claim C9, counterexample: on `bigObjSet` — one object, one geometry
group, `2 ^ 32` triangles whose `3 · 2 ^ 32` corners are pairwise-distinct
keys — the load succeeds, the corner at source position `2 ^ 32` resolves
to the vertex `(2 ^ 32, 7)`, but the index stored at that position is
`2 ^ 32 % 2 ^ 32 = 0` and vertex 0 is `(0, 7)`: the index does not resolve
to that corner's vertex, so the resolution property fails for an input past
the `u32` wrap-around. -/
theorem claim9_counterexample :
    loadObjSet (id : Nat → Nat) bigObjSet = .ok bigMesh ∧
    (allCorners bigGeom.shapes)[N32]? = some (bigKey N32) ∧
    bigMesh.indices[N32]? = some 0 ∧
    bigMesh.vertices[0]? = some { position := 0, normal := 7 } ∧
    resolveCorner id bigObject (bigKey N32) = some { position := N32, normal := 7 } ∧
    ({ position := 0, normal := 7 } : Vertex Nat) ≠ { position := N32, normal := 7 } := by
  refine ⟨bigObjSet_run, bigCorners_at_N32, bigMesh_indices_N32, bigMesh_vertices_0,
    resolve_bigKey N32_lt_len, by decide⟩

/-- Claim C10: each new `VertexIndex` is `vertices.len()` cast to `u32`,
modelled as `% 2 ^ 32`.  (a) For every input whose number of distinct
corner keys is at most `2 ^ 32` the cast is exact: the loader coincides
with an ideal loader using the uncast length.  (b) On an input with more
than `2 ^ 32` distinct keys the load still succeeds — no error — and the
stored index wraps modulo `2 ^ 32`: position `2 ^ 32` receives index
`2 ^ 32 % 2 ^ 32 = 0`, which resolves to the wrong vertex. -/
theorem claim10_u32_cast :
    (∀ {A B : Type} (conv : A → B) (os : ObjSet A),
        (∀ o ∈ os.objects, ∀ g ∈ o.geometry,
          (allCorners g.shapes).dedup.length ≤ 2 ^ 32) →
        loadObjSet conv os = loadObjSetExact conv os) ∧
    (2 ^ 32 < (allCorners bigGeom.shapes).dedup.length ∧
      loadObjSet (id : Nat → Nat) bigObjSet = .ok bigMesh ∧
      bigMesh.indices[N32]? = some (wrap32 N32) ∧
      wrap32 N32 = 0 ∧ N32 ≠ 0 ∧
      bigMesh.vertices[0]? ≠ resolveCorner id bigObject (bigKey N32)) := by
  constructor
  · intro A B conv os hb
    obtain ⟨objs⟩ := os
    rcases objs with _ | ⟨o, _ | ⟨o2, orest⟩⟩
    · rfl
    · show loadObjSetG assocCache wrap32 conv { objects := [o] } =
        loadObjSetG assocCache id conv { objects := [o] }
      simp only [loadObjSetG]
      cases hg : o.geometry with
      | nil => rfl
      | cons g grest =>
        cases grest with
        | cons g2 grest2 => rfl
        | nil =>
          have hbound : (allCorners g.shapes).dedup.length ≤ 2 ^ 32 := by
            refine hb o (by simp) g ?_
            rw [hg]
            simp
          have hex : processShapesG assocCache wrap32 conv o
              { cache := assocCache.empty, vertices := [], indices := [] } g.shapes =
              processShapesG assocCache id conv o
              { cache := assocCache.empty, vertices := [], indices := [] } g.shapes :=
            processShapes_exact conv o g.shapes
              { cache := [], vertices := [], indices := [] }
              (by simp) rfl
              (by simpa [toFinset_card_eq_dedup_length] using hbound)
          show (processShapesG assocCache wrap32 conv o
              { cache := assocCache.empty, vertices := [], indices := [] } g.shapes).bind
            (fun st => (LoadResult.ok { vertices := st.vertices, indices := st.indices } :
              LoadResult (Obj B))) =
            (processShapesG assocCache id conv o
              { cache := assocCache.empty, vertices := [], indices := [] } g.shapes).bind
            (fun st => (LoadResult.ok { vertices := st.vertices, indices := st.indices } :
              LoadResult (Obj B)))
          rw [hex]
    · rfl
  · refine ⟨?_, bigObjSet_run, ?_, wrap32_N32, by norm_num [N32], ?_⟩
    · have e : bigGeom.shapes = bigShapes := by simp only [bigGeom]
      rw [e, allCorners_bigShapes, List.dedup_eq_self.mpr bigCorners_nodup,
        List.length_map, List.length_range]
      norm_num [N32]
    · rw [wrap32_N32]
      exact bigMesh_indices_N32
    · rw [bigMesh_vertices_0, resolve_bigKey N32_lt_len]
      decide

/-- Claim C10, witness: on the small input `c4os1` (3 distinct keys, far
below `2 ^ 32`) the truncating loader and the exact loader agree. -/
theorem claim10_witness :
    loadObjSet (id : Nat → Nat) c4os1 = loadObjSetExact id c4os1 :=
  claim10_u32_cast.1 id c4os1 (by decide)
